import Mathlib

/-!
Shallow embedding of the vehicle-simulation core of the `lobsters` repository:
the boat physics integrator (`src/boat.ts`), the SAT collision subsystem and
island collision coupler (`src/collision.ts`, `src/camera.ts`), the
ear-clipping triangulator (`src/camera.ts`), the point-in-polygon zone query
(`isAtPort`), and the camera tracker (`src/camera.ts`).  Numbers are modelled
as real numbers; JavaScript `Math.sqrt`, `Math.sin`, `Math.cos`, `Math.pow`
become `Real.sqrt`, `Real.sin`, `Real.cos`, `Real.rpow`.
-/

namespace Lobsters

noncomputable section

open scoped Classical

/-- 2D point in the horizontal ground plane, as the repository's `Vec2`. -/
structure Vec2 where
  x : ℝ
  z : ℝ

attribute [ext] Vec2

/-- Dot product of two `Vec2`s, written inline throughout the source. -/
def dot (a b : Vec2) : ℝ := a.x * b.x + a.z * b.z

/-- Euclidean magnitude, `Math.sqrt(v.x * v.x + v.z * v.z)` in the source. -/
def mag (v : Vec2) : ℝ := Real.sqrt (v.x * v.x + v.z * v.z)

/-- The mutable vehicle state of `src/types.ts` (`GameState`), restricted to
the fields the physics and collision code reads and writes. -/
structure GameState where
  position : Vec2
  velocity : Vec2
  heading : ℝ
  angularVelocity : ℝ

attribute [ext] GameState

/-- Normalized control input (`InputState` of `src/types.ts`). -/
structure InputState where
  forward : ℝ
  turn : ℝ

/-! Constants of `src/boat.ts`. -/

def ACCELERATION : ℝ := 8
def MAX_SPEED : ℝ := 12
def DRAG : ℝ := 0.98
def TURN_SPEED : ℝ := 2.5
def TURN_DRAG : ℝ := 0.92

/-- One physics update, translated line by line from `updateBoatPhysics` in
`src/boat.ts` (turn, angular drag, heading, thrust along the new heading,
speed clamp, linear drag, position integration). -/
def updateBoatPhysics (s : GameState) (input : InputState) (dt : ℝ) : GameState :=
  let av1 : ℝ := s.angularVelocity + input.turn * TURN_SPEED * dt
  let av2 : ℝ := av1 * TURN_DRAG
  let heading : ℝ := s.heading + av2 * dt
  let forwardX : ℝ := Real.sin heading
  let forwardZ : ℝ := Real.cos heading
  let thrust : ℝ := input.forward * ACCELERATION * dt
  let vx1 : ℝ := s.velocity.x + forwardX * thrust
  let vz1 : ℝ := s.velocity.z + forwardZ * thrust
  let speed : ℝ := Real.sqrt (vx1 * vx1 + vz1 * vz1)
  let vx2 : ℝ := if speed > MAX_SPEED then vx1 / speed * MAX_SPEED else vx1
  let vz2 : ℝ := if speed > MAX_SPEED then vz1 / speed * MAX_SPEED else vz1
  let vx3 : ℝ := vx2 * DRAG
  let vz3 : ℝ := vz2 * DRAG
  { position := ⟨s.position.x + vx3 * dt, s.position.z + vz3 * dt⟩
    velocity := ⟨vx3, vz3⟩
    heading := heading
    angularVelocity := av2 }

/-! Spec-side decomposition of the integrator into the eight ordered steps of
spec section 4.4, used to state claim C3 as a refinement: each `specStep`
follows one numbered sentence of the spec. -/

/-- Spec step 1: `angularVelocity += turnInput * turnAccelConstant * dt`. -/
def specStep1 (input : InputState) (dt : ℝ) (s : GameState) : GameState :=
  { s with angularVelocity := s.angularVelocity + input.turn * TURN_SPEED * dt }

/-- Spec step 2: `angularVelocity *= angularDragConstant`. -/
def specStep2 (s : GameState) : GameState :=
  { s with angularVelocity := s.angularVelocity * TURN_DRAG }

/-- Spec step 3: `heading += angularVelocity * dt`. -/
def specStep3 (dt : ℝ) (s : GameState) : GameState :=
  { s with heading := s.heading + s.angularVelocity * dt }

/-- Spec step 4: forward unit vector `(sin heading, cos heading)` from the
new heading. -/
def specForward (s : GameState) : Vec2 :=
  ⟨Real.sin s.heading, Real.cos s.heading⟩

/-- Spec step 5: `velocity += forward * forwardInput * linearAccelConstant * dt`. -/
def specStep5 (input : InputState) (dt : ℝ) (s : GameState) : GameState :=
  { s with velocity :=
      ⟨s.velocity.x + (specForward s).x * (input.forward * ACCELERATION * dt),
       s.velocity.z + (specForward s).z * (input.forward * ACCELERATION * dt)⟩ }

/-- Spec step 6: rescale velocity to `maxSpeed` when its magnitude exceeds it. -/
def specStep6 (s : GameState) : GameState :=
  if mag s.velocity > MAX_SPEED then
    { s with velocity := ⟨s.velocity.x / mag s.velocity * MAX_SPEED,
                          s.velocity.z / mag s.velocity * MAX_SPEED⟩ }
  else s

/-- Spec step 7: `velocity *= linearDragConstant`. -/
def specStep7 (s : GameState) : GameState :=
  { s with velocity := ⟨s.velocity.x * DRAG, s.velocity.z * DRAG⟩ }

/-- Spec step 8: `position += velocity * dt`. -/
def specStep8 (dt : ℝ) (s : GameState) : GameState :=
  { s with position := ⟨s.position.x + s.velocity.x * dt,
                        s.position.z + s.velocity.z * dt⟩ }

/-! Claim C3. -/

/-- C3: one physics update performs exactly the eight spec steps in the spec's
order — turning and angular drag before the heading update, the forward vector
`(sin heading, cos heading)` taken from the new heading (so heading 0 points
along +Z: the forward vector is `(0, 1)`), thrust before the speed clamp, drag
after the clamp, position last — and both drag constants are below 1. -/
theorem updateBoatPhysics_step_order :
    (∀ (s : GameState) (input : InputState) (dt : ℝ),
        updateBoatPhysics s input dt =
          specStep8 dt (specStep7 (specStep6
            (specStep5 input dt (specStep3 dt (specStep2 (specStep1 input dt s))))))) ∧
      TURN_DRAG < 1 ∧ DRAG < 1 ∧
      (∀ s : GameState, s.heading = 0 → specForward s = ⟨0, 1⟩) := by
  refine ⟨fun s input dt => ?_, by norm_num [TURN_DRAG], by norm_num [DRAG],
    fun s h => by simp [specForward, h]⟩
  simp only [updateBoatPhysics, specStep1, specStep2, specStep3, specStep5,
    specStep6, specStep7, specStep8, specForward, mag]
  split <;> rfl

/-! Claim C4: the speed clamp. -/

/-- Magnitude of a componentwise-scaled vector. -/
theorem mag_scale (a b c : ℝ) : mag ⟨a * c, b * c⟩ = mag ⟨a, b⟩ * |c| := by
  simp only [mag]
  rw [show a * c * (a * c) + b * c * (b * c) = (a * a + b * b) * (c * c) by ring,
    Real.sqrt_mul (by nlinarith [mul_self_nonneg a, mul_self_nonneg b]),
    Real.sqrt_mul_self_eq_abs]

/-- C4: after a single `updateBoatPhysics` call — whatever the initial state
(even one already faster than `MAX_SPEED`), input and `dt ≥ 0` — the magnitude
of the resulting velocity is at most `MAX_SPEED`. -/
theorem updateBoatPhysics_speed_clamp (s : GameState) (input : InputState)
    (dt : ℝ) (hdt : 0 ≤ dt) :
    mag (updateBoatPhysics s input dt).velocity ≤ MAX_SPEED := by
  clear hdt
  simp only [updateBoatPhysics]
  set vx1 : ℝ := s.velocity.x +
    Real.sin (s.heading + (s.angularVelocity + input.turn * TURN_SPEED * dt) * TURN_DRAG * dt) *
      (input.forward * ACCELERATION * dt) with hvx1
  set vz1 : ℝ := s.velocity.z +
    Real.cos (s.heading + (s.angularVelocity + input.turn * TURN_SPEED * dt) * TURN_DRAG * dt) *
      (input.forward * ACCELERATION * dt) with hvz1
  set speed : ℝ := Real.sqrt (vx1 * vx1 + vz1 * vz1) with hspeed
  have hspeednn : 0 ≤ speed := Real.sqrt_nonneg _
  have hmagv : mag ⟨vx1, vz1⟩ = speed := rfl
  by_cases hgt : speed > MAX_SPEED
  · have hpos : 0 < speed := lt_trans (by norm_num [MAX_SPEED]) hgt
    simp only [hgt, if_true]
    have h1 : mag ⟨vx1 / speed * MAX_SPEED * DRAG, vz1 / speed * MAX_SPEED * DRAG⟩ =
        mag ⟨vx1, vz1⟩ * |1 / speed * MAX_SPEED * DRAG| := by
      rw [show vx1 / speed * MAX_SPEED * DRAG = vx1 * (1 / speed * MAX_SPEED * DRAG) by ring,
        show vz1 / speed * MAX_SPEED * DRAG = vz1 * (1 / speed * MAX_SPEED * DRAG) by ring,
        mag_scale]
    rw [h1, hmagv, abs_of_nonneg (by simp only [MAX_SPEED, DRAG]; positivity)]
    rw [show speed * (1 / speed * MAX_SPEED * DRAG) = speed / speed * MAX_SPEED * DRAG by ring,
      div_self (ne_of_gt hpos)]
    norm_num [MAX_SPEED, DRAG]
  · simp only [hgt, if_false]
    have h1 : mag ⟨vx1 * DRAG, vz1 * DRAG⟩ = mag ⟨vx1, vz1⟩ * |DRAG| := mag_scale _ _ _
    rw [h1, hmagv, abs_of_nonneg (by norm_num [DRAG])]
    have hle : speed ≤ 12 := by simpa [MAX_SPEED] using not_lt.mp hgt
    norm_num [MAX_SPEED, DRAG]
    nlinarith [hspeednn, hle]

/-- Witness for C4 at a concrete input: the zero state with zero input and
`dt = 0` satisfies the hypothesis, and the theorem applies. -/
theorem updateBoatPhysics_speed_clamp_witness :
    (0 : ℝ) ≤ 0 ∧
      mag (updateBoatPhysics ⟨⟨0, 0⟩, ⟨0, 0⟩, 0, 0⟩ ⟨0, 0⟩ 0).velocity ≤ MAX_SPEED :=
  ⟨le_refl 0, updateBoatPhysics_speed_clamp ⟨⟨0, 0⟩, ⟨0, 0⟩, 0, 0⟩ ⟨0, 0⟩ 0 (le_refl 0)⟩

/-! Collision geometry (`src/collision.ts`). -/

def BOAT_LENGTH : ℝ := 3
def BOAT_WIDTH : ℝ := 1.5

/-- The 4 world-space corners of the boat's bounding rectangle
(`getBoatCorners` in `src/collision.ts`): local corners of a
`BOAT_WIDTH × BOAT_LENGTH` rectangle rotated by `heading` and translated by
`position`. -/
def getBoatCorners (s : GameState) : List Vec2 :=
  let c : ℝ := Real.cos s.heading
  let sn : ℝ := Real.sin s.heading
  let halfL : ℝ := BOAT_LENGTH / 2
  let halfW : ℝ := BOAT_WIDTH / 2
  ([⟨-halfW, halfL⟩, ⟨halfW, halfL⟩, ⟨halfW, -halfL⟩, ⟨-halfW, -halfL⟩] : List Vec2).map
    fun p => ⟨s.position.x + p.x * c - p.z * sn, s.position.z + p.x * sn + p.z * c⟩

/-- Magnitude through a square root of a product decomposition. -/
theorem mag_of_sq (v : Vec2) (r : ℝ) (hr : 0 ≤ r) (h : v.x * v.x + v.z * v.z = r * r) :
    mag v = r := by
  rw [mag, h, Real.sqrt_mul_self hr]

/-! Claim C10. -/

/-- C10: for every vehicle state, `getBoatCorners` returns exactly 4 points
whose arithmetic mean is the vehicle's position, with consecutive side lengths
`BOAT_WIDTH = 1.5`, `BOAT_LENGTH = 3`, `BOAT_WIDTH`, `BOAT_LENGTH` and all
four corner angles right angles: a non-degenerate rectangle centered at the
pose position. -/
theorem getBoatCorners_footprint (s : GameState) :
    ∃ a b c d : Vec2, getBoatCorners s = [a, b, c, d] ∧
      (a.x + b.x + c.x + d.x) / 4 = s.position.x ∧
      (a.z + b.z + c.z + d.z) / 4 = s.position.z ∧
      mag ⟨b.x - a.x, b.z - a.z⟩ = BOAT_WIDTH ∧
      mag ⟨c.x - b.x, c.z - b.z⟩ = BOAT_LENGTH ∧
      mag ⟨d.x - c.x, d.z - c.z⟩ = BOAT_WIDTH ∧
      mag ⟨a.x - d.x, a.z - d.z⟩ = BOAT_LENGTH ∧
      dot ⟨b.x - a.x, b.z - a.z⟩ ⟨c.x - b.x, c.z - b.z⟩ = 0 ∧
      dot ⟨c.x - b.x, c.z - b.z⟩ ⟨d.x - c.x, d.z - c.z⟩ = 0 ∧
      dot ⟨d.x - c.x, d.z - c.z⟩ ⟨a.x - d.x, a.z - d.z⟩ = 0 ∧
      (0 : ℝ) < BOAT_WIDTH ∧ (0 : ℝ) < BOAT_LENGTH ∧
      (getBoatCorners s).length = 4 := by
  have hpyth := Real.sin_sq_add_cos_sq s.heading
  refine ⟨_, _, _, _, rfl, ?_, ?_, ?_, ?_, ?_, ?_, ?_, ?_, ?_, ?_, ?_, rfl⟩
  · simp only [getBoatCorners, List.map]; ring
  · simp only [getBoatCorners, List.map]; ring
  · refine mag_of_sq _ _ (by norm_num [BOAT_WIDTH]) ?_
    simp only [getBoatCorners, List.map, BOAT_WIDTH, BOAT_LENGTH]
    linear_combination (9 / 4 : ℝ) * hpyth
  · refine mag_of_sq _ _ (by norm_num [BOAT_LENGTH]) ?_
    simp only [getBoatCorners, List.map, BOAT_WIDTH, BOAT_LENGTH]
    linear_combination (9 : ℝ) * hpyth
  · refine mag_of_sq _ _ (by norm_num [BOAT_WIDTH]) ?_
    simp only [getBoatCorners, List.map, BOAT_WIDTH, BOAT_LENGTH]
    linear_combination (9 / 4 : ℝ) * hpyth
  · refine mag_of_sq _ _ (by norm_num [BOAT_LENGTH]) ?_
    simp only [getBoatCorners, List.map, BOAT_WIDTH, BOAT_LENGTH]
    linear_combination (9 : ℝ) * hpyth
  · simp only [getBoatCorners, List.map, dot]; ring
  · simp only [getBoatCorners, List.map, dot]; ring
  · simp only [getBoatCorners, List.map, dot]; ring
  · norm_num [BOAT_WIDTH]
  · norm_num [BOAT_LENGTH]

/-- Edge normals of a polygon (`getPolygonAxes` in `src/collision.ts` and
`src/camera.ts`): for each edge (with wraparound), the unit perpendicular
`(-edge.z, edge.x) / len`; zero-length edges contribute no axis. -/
def getPolygonAxes (polygon : List Vec2) : List Vec2 :=
  (List.range polygon.length).filterMap fun i =>
    let p1 := polygon.getD i ⟨0, 0⟩
    let p2 := polygon.getD ((i + 1) % polygon.length) ⟨0, 0⟩
    let ex := p2.x - p1.x
    let ez := p2.z - p1.z
    let len := Real.sqrt (ex * ex + ez * ez)
    if len > 0 then some ⟨-ez / len, ex / len⟩ else none

/-- Projection interval (min, max) of a polygon's vertices onto an axis
(`projectPolygon`).  On the empty list the source would yield `(∞, -∞)`;
the embedding is only used, and only claimed faithful, for nonempty lists. -/
def projectPolygon : List Vec2 → Vec2 → ℝ × ℝ
  | [], _ => (0, 0)
  | v :: vs, axis =>
      vs.foldl (fun mm w => (min mm.1 (dot w axis), max mm.2 (dot w axis)))
        (dot v axis, dot v axis)

/-- Overlap length of two projection intervals (`getOverlap`): 0 when they
are disjoint, else the positive overlap. -/
def getOverlap (a b : ℝ × ℝ) : ℝ :=
  if a.2 < b.1 ∨ b.2 < a.1 then 0 else min (a.2 - b.1) (b.2 - a.1)

/-- The projection overlap of rectangle and polygon on one axis. -/
def overlapOn (rect poly : List Vec2) (axis : Vec2) : ℝ :=
  getOverlap (projectPolygon rect axis) (projectPolygon poly axis)

/-- The axis loop of `getCollisionMTV`: walk the candidate axes, short-circuit
to `none` on a zero overlap, otherwise track the axis of (strictly) smallest
overlap seen so far (the `minOverlap = Infinity` start is modelled by the
`Option` accumulator: the first non-separating axis always becomes the best). -/
def satScan (rect poly : List Vec2) : List Vec2 → Option (Vec2 × ℝ) → Option (Vec2 × ℝ)
  | [], best => best
  | axis :: rest, none =>
      let ov := overlapOn rect poly axis
      if ov = 0 then none
      else satScan rect poly rest (some (axis, ov))
  | axis :: rest, some (bAxis, bOv) =>
      let ov := overlapOn rect poly axis
      if ov = 0 then none
      else if ov < bOv then satScan rect poly rest (some (axis, ov))
      else satScan rect poly rest (some (bAxis, bOv))

/-- The boat-center reduction of `getCollisionMTV`: sum of `corner / 4`. -/
def boatCenterOf (rect : List Vec2) : Vec2 :=
  ⟨(rect.map fun v => v.x / 4).sum, (rect.map fun v => v.z / 4).sum⟩

/-- The island-center reduction of `getCollisionMTV`: sum of `vertex / n`. -/
def islandCenterOf (poly : List Vec2) : Vec2 :=
  ⟨(poly.map fun v => v.x / (poly.length : ℝ)).sum,
   (poly.map fun v => v.z / (poly.length : ℝ)).sum⟩

/-- SAT collision detection between the boat rectangle and an island polygon
(`getCollisionMTV` in `src/collision.ts` / `src/camera.ts`): test the edge
normals of both shapes, return `none` on the first separating axis, else
scale the minimum-overlap axis by the overlap, flipped so it points from the
island center toward the boat center. -/
def getCollisionMTV (boatCorners islandPolygon : List Vec2) : Option Vec2 :=
  let allAxes := getPolygonAxes boatCorners ++ getPolygonAxes islandPolygon
  match satScan boatCorners islandPolygon allAxes none with
  | none => none
  | some (axis, minOverlap) =>
      let toBoat : Vec2 :=
        ⟨(boatCenterOf boatCorners).x - (islandCenterOf islandPolygon).x,
         (boatCenterOf boatCorners).z - (islandCenterOf islandPolygon).z⟩
      let d := dot toBoat axis
      let mtvAxis : Vec2 := if d < 0 then ⟨-axis.x, -axis.z⟩ else axis
      some ⟨mtvAxis.x * minOverlap, mtvAxis.z * minOverlap⟩

/-! Properties of the SAT scan, toward claim C1. -/

/-- Projection overlaps are never negative. -/
theorem overlapOn_nonneg (rect poly : List Vec2) (axis : Vec2) :
    0 ≤ overlapOn rect poly axis := by
  unfold overlapOn getOverlap
  split
  · exact le_refl 0
  · next h =>
      push_neg at h
      exact le_min (by linarith [h.1]) (by linarith [h.2])

/-- Every axis produced by `getPolygonAxes` is a unit vector. -/
theorem getPolygonAxes_unit (p : List Vec2) :
    ∀ a ∈ getPolygonAxes p, a.x * a.x + a.z * a.z = 1 := by
  intro a ha
  simp only [getPolygonAxes, List.mem_filterMap] at ha
  obtain ⟨i, -, hfa⟩ := ha
  set p1 := p.getD i ⟨0, 0⟩
  set p2 := p.getD ((i + 1) % p.length) ⟨0, 0⟩
  set ex := p2.x - p1.x
  set ez := p2.z - p1.z
  set len := Real.sqrt (ex * ex + ez * ez) with hlen
  by_cases hpos : len > 0
  · rw [if_pos hpos] at hfa
    obtain rfl : (⟨-ez / len, ex / len⟩ : Vec2) = a := Option.some.inj hfa
    have hsq : len * len = ex * ex + ez * ez :=
      Real.mul_self_sqrt (by nlinarith [mul_self_nonneg ex, mul_self_nonneg ez])
    have hne : len ≠ 0 := ne_of_gt hpos
    field_simp
    linarith [hsq]
  · rw [if_neg hpos] at hfa
    exact absurd hfa (by simp)

/-- A unit axis has magnitude 1. -/
theorem mag_of_unit (a : Vec2) (h : a.x * a.x + a.z * a.z = 1) : mag a = 1 := by
  rw [mag, h, Real.sqrt_one]

/-- The scan returns `none` exactly when some scanned axis has zero overlap,
or when it had nothing to scan and no best axis yet. -/
theorem satScan_none_iff (rect poly : List Vec2) (axes : List Vec2) :
    ∀ best : Option (Vec2 × ℝ),
      satScan rect poly axes best = none ↔
        (∃ a ∈ axes, overlapOn rect poly a = 0) ∨ (best = none ∧ axes = []) := by
  induction axes with
  | nil => intro best; cases best <;> simp [satScan]
  | cons ax rest ih =>
      intro best
      by_cases h0 : overlapOn rect poly ax = 0
      · cases best with
        | none => simp only [satScan, if_pos h0]; simp [h0]
        | some b => obtain ⟨bAxis, bOv⟩ := b; simp only [satScan, if_pos h0]; simp [h0]
      · cases best with
        | none =>
            simp only [satScan, if_neg h0]
            rw [ih]
            simp [h0]
        | some b =>
            obtain ⟨bAxis, bOv⟩ := b
            simp only [satScan, if_neg h0]
            by_cases hlt : overlapOn rect poly ax < bOv
            · rw [if_pos hlt, ih]; simp [h0]
            · rw [if_neg hlt, ih]; simp [h0]

/-- What a successful scan returns: a scanned axis (or the incoming best)
paired with its own overlap, minimal among all scanned overlaps and at most
the incoming best. -/
theorem satScan_some_spec (rect poly : List Vec2) (axes : List Vec2) :
    ∀ (best : Option (Vec2 × ℝ)) (res : Vec2 × ℝ),
      satScan rect poly axes best = some res →
        ((res.1 ∈ axes ∧ res.2 = overlapOn rect poly res.1) ∨ best = some res) ∧
        (∀ a ∈ axes, res.2 ≤ overlapOn rect poly a) ∧
        (∀ b : Vec2 × ℝ, best = some b → res.2 ≤ b.2) := by
  induction axes with
  | nil =>
      intro best res h
      simp only [satScan] at h
      exact ⟨Or.inr h, by simp, fun b hb => by rw [h] at hb; cases hb; exact le_refl _⟩
  | cons ax rest ih =>
      intro best res h
      by_cases h0 : overlapOn rect poly ax = 0
      · exfalso
        cases best with
        | none => simp only [satScan, if_pos h0] at h; cases h
        | some b => obtain ⟨bAxis, bOv⟩ := b; simp only [satScan, if_pos h0] at h; cases h
      · cases best with
        | none =>
            simp only [satScan, if_neg h0] at h
            obtain ⟨hmem, hmin, hbest⟩ := ih (some (ax, overlapOn rect poly ax)) res h
            have hres2 : res.2 ≤ overlapOn rect poly ax := hbest _ rfl
            refine ⟨?_, ?_, ?_⟩
            · rcases hmem with ⟨hm, he⟩ | he
              · exact Or.inl ⟨List.mem_cons_of_mem _ hm, he⟩
              · obtain rfl := Option.some.inj he
                exact Or.inl ⟨List.mem_cons_self _ _, rfl⟩
            · intro a ha
              rcases List.mem_cons.mp ha with rfl | ha
              · exact hres2
              · exact hmin a ha
            · intro b hb; cases hb
        | some b =>
            obtain ⟨bAxis, bOv⟩ := b
            simp only [satScan, if_neg h0] at h
            by_cases hlt : overlapOn rect poly ax < bOv
            · rw [if_pos hlt] at h
              obtain ⟨hmem, hmin, hbest⟩ := ih _ res h
              have hres2 : res.2 ≤ overlapOn rect poly ax := hbest _ rfl
              refine ⟨?_, ?_, ?_⟩
              · rcases hmem with ⟨hm, he⟩ | he
                · exact Or.inl ⟨List.mem_cons_of_mem _ hm, he⟩
                · obtain rfl := Option.some.inj he
                  exact Or.inl ⟨List.mem_cons_self _ _, rfl⟩
              · intro a ha
                rcases List.mem_cons.mp ha with rfl | ha
                · exact hres2
                · exact hmin a ha
              · intro b hb
                obtain rfl := Option.some.inj hb
                exact le_trans hres2 (le_of_lt hlt)
            · rw [if_neg hlt] at h
              obtain ⟨hmem, hmin, hbest⟩ := ih _ res h
              have hres2 : res.2 ≤ bOv := hbest _ rfl
              refine ⟨?_, ?_, ?_⟩
              · rcases hmem with ⟨hm, he⟩ | he
                · exact Or.inl ⟨List.mem_cons_of_mem _ hm, he⟩
                · exact Or.inr he
              · intro a ha
                rcases List.mem_cons.mp ha with rfl | ha
                · exact le_trans hres2 (not_lt.mp hlt)
                · exact hmin a ha
              · intro b hb
                obtain rfl := Option.some.inj hb
                exact hres2

/-- A successful scan's overlap is strictly positive (given the incoming best
is, vacuously so for `none`). -/
theorem satScan_some_pos (rect poly : List Vec2) (axes : List Vec2) :
    ∀ (best : Option (Vec2 × ℝ)) (res : Vec2 × ℝ),
      (∀ b : Vec2 × ℝ, best = some b → 0 < b.2) →
      satScan rect poly axes best = some res → 0 < res.2 := by
  induction axes with
  | nil =>
      intro best res hbest h
      simp only [satScan] at h
      exact hbest res h
  | cons ax rest ih =>
      intro best res hbest h
      have hov := overlapOn_nonneg rect poly ax
      by_cases h0 : overlapOn rect poly ax = 0
      · exfalso
        cases best with
        | none => simp only [satScan, if_pos h0] at h; cases h
        | some b => obtain ⟨bAxis, bOv⟩ := b; simp only [satScan, if_pos h0] at h; cases h
      · have hovpos : 0 < overlapOn rect poly ax := lt_of_le_of_ne hov (Ne.symm h0)
        cases best with
        | none =>
            simp only [satScan, if_neg h0] at h
            exact ih _ res (fun b hb => by cases hb; exact hovpos) h
        | some b =>
            obtain ⟨bAxis, bOv⟩ := b
            simp only [satScan, if_neg h0] at h
            have hbOv : 0 < bOv := hbest (bAxis, bOv) rfl
            by_cases hlt : overlapOn rect poly ax < bOv
            · rw [if_pos hlt] at h
              exact ih _ res (fun b hb => by cases hb; exact hovpos) h
            · rw [if_neg hlt] at h
              exact ih _ res (fun b hb => by cases hb; exact hbOv) h

/-! Claim C1. -/

/-- C1: for a 4-corner rectangle (with at least one nonzero edge, so it
contributes axes) and a nonempty polygon, `getCollisionMTV` returns `none`
exactly when some tested axis (an edge normal of the rectangle or of the
polygon) has zero projection overlap; and when it returns an MTV, the MTV's
magnitude equals the smallest projection overlap across all tested axes
(attained at one of them, and a lower bound for all of them), and its dot
product with the vector from the polygon's vertex-average center to the
rectangle's vertex-average center is non-negative. -/
theorem getCollisionMTV_sat_spec (rect poly : List Vec2) (hrect : rect.length = 4)
    (hpoly : poly ≠ []) (haxes : getPolygonAxes rect ≠ []) :
    (getCollisionMTV rect poly = none ↔
       ∃ a ∈ getPolygonAxes rect ++ getPolygonAxes poly, overlapOn rect poly a = 0) ∧
    (∀ m, getCollisionMTV rect poly = some m →
       (∃ a ∈ getPolygonAxes rect ++ getPolygonAxes poly,
          overlapOn rect poly a = mag m) ∧
       (∀ a ∈ getPolygonAxes rect ++ getPolygonAxes poly, mag m ≤ overlapOn rect poly a) ∧
       0 ≤ dot m ⟨(boatCenterOf rect).x - (islandCenterOf poly).x,
                  (boatCenterOf rect).z - (islandCenterOf poly).z⟩) := by
  clear hrect hpoly
  set allAxes := getPolygonAxes rect ++ getPolygonAxes poly with hall
  have hallne : allAxes ≠ [] := by
    intro hnil
    exact haxes (List.append_eq_nil.mp hnil).1
  cases hscan : satScan rect poly allAxes none with
  | none =>
      have hex := (satScan_none_iff rect poly allAxes none).mp hscan
      rcases hex with hex | ⟨-, hnil⟩
      · constructor
        · rw [getCollisionMTV, ← hall, hscan]
          simp [hex]
        · intro m hm
          rw [getCollisionMTV, ← hall, hscan] at hm
          cases hm
      · exact absurd hnil hallne
  | some p =>
      obtain ⟨axis, mo⟩ := p
      obtain ⟨hmem, hmin, -⟩ := satScan_some_spec rect poly allAxes none (axis, mo) hscan
      rcases hmem with ⟨haxmem, hax_ov⟩ | hcontra
      swap
      · cases hcontra
      have hpos : 0 < mo :=
        satScan_some_pos rect poly allAxes none (axis, mo) (fun b hb => by cases hb) hscan
      have hunit : axis.x * axis.x + axis.z * axis.z = 1 := by
        rcases List.mem_append.mp haxmem with h | h
        · exact getPolygonAxes_unit rect axis h
        · exact getPolygonAxes_unit poly axis h
      constructor
      · constructor
        · intro hnone
          rw [getCollisionMTV, ← hall, hscan] at hnone
          simp at hnone
        · intro hex
          have := (satScan_none_iff rect poly allAxes none).mpr (Or.inl hex)
          rw [hscan] at this
          cases this
      · intro m hm
        rw [getCollisionMTV, ← hall, hscan] at hm
        simp only [Option.some.injEq] at hm
        set tb : Vec2 := ⟨(boatCenterOf rect).x - (islandCenterOf poly).x,
                          (boatCenterOf rect).z - (islandCenterOf poly).z⟩ with htb
        have hmagm : mag m = mo := by
          by_cases hd : dot tb axis < 0
          · rw [if_pos hd] at hm
            rw [← hm]
            have h1 : mag ⟨-axis.x * mo, -axis.z * mo⟩ =
                mag ⟨-axis.x, -axis.z⟩ * |mo| := mag_scale _ _ _
            rw [h1, mag_of_unit ⟨-axis.x, -axis.z⟩ (by simpa using hunit),
              abs_of_pos hpos, one_mul]
          · rw [if_neg hd] at hm
            rw [← hm]
            have h1 : mag ⟨axis.x * mo, axis.z * mo⟩ =
                mag ⟨axis.x, axis.z⟩ * |mo| := mag_scale _ _ _
            rw [h1, mag_of_unit ⟨axis.x, axis.z⟩ hunit, abs_of_pos hpos, one_mul]
        refine ⟨⟨axis, haxmem, by rw [hmagm]; exact hax_ov.symm⟩,
          fun a ha => by rw [hmagm]; exact hmin a ha, ?_⟩
        by_cases hd : dot tb axis < 0
        · rw [if_pos hd] at hm
          rw [← hm]
          have : dot ⟨-axis.x * mo, -axis.z * mo⟩ tb = mo * (-(dot tb axis)) := by
            simp only [dot]; ring
          rw [this]
          have : 0 ≤ -(dot tb axis) := by linarith
          positivity
        · rw [if_neg hd] at hm
          rw [← hm]
          have heq : dot ⟨axis.x * mo, axis.z * mo⟩ tb = mo * dot tb axis := by
            simp only [dot]; ring
          rw [heq]
          have : 0 ≤ dot tb axis := not_lt.mp hd
          positivity

/-! Concrete fixtures: an axis-aligned rectangle sitting inside the notch of
an L-shaped polygon (solid region `[0,4]×[0,2] ∪ [2,4]×[2,4]`, notch
`[0,2]×[2,4]`). -/

def rectNotch : List Vec2 := [⟨0.5, 2.5⟩, ⟨1.5, 2.5⟩, ⟨1.5, 3.5⟩, ⟨0.5, 3.5⟩]

def lShape : List Vec2 := [⟨0, 0⟩, ⟨4, 0⟩, ⟨4, 4⟩, ⟨2, 4⟩, ⟨2, 2⟩, ⟨0, 2⟩]

theorem rectNotch_axes :
    getPolygonAxes rectNotch = [⟨0, 1⟩, ⟨-1, 0⟩, ⟨0, -1⟩, ⟨1, 0⟩] := by
  have hlen : rectNotch.length = 4 := rfl
  have hr : List.range 4 = [0, 1, 2, 3] := by decide
  simp only [getPolygonAxes, hlen, hr, List.filterMap]
  norm_num [rectNotch, List.getD, Real.sqrt_one, Vec2.mk.injEq]

/-- Witness for C1 at a concrete input: the notch rectangle against the
L-shaped polygon satisfies all three hypotheses and the theorem applies. -/
theorem getCollisionMTV_sat_spec_witness :
    rectNotch.length = 4 ∧ lShape ≠ [] ∧ getPolygonAxes rectNotch ≠ [] ∧
      ((getCollisionMTV rectNotch lShape = none ↔
         ∃ a ∈ getPolygonAxes rectNotch ++ getPolygonAxes lShape,
           overlapOn rectNotch lShape a = 0) ∧
       (∀ m, getCollisionMTV rectNotch lShape = some m →
         (∃ a ∈ getPolygonAxes rectNotch ++ getPolygonAxes lShape,
            overlapOn rectNotch lShape a = mag m) ∧
         (∀ a ∈ getPolygonAxes rectNotch ++ getPolygonAxes lShape,
            mag m ≤ overlapOn rectNotch lShape a) ∧
         0 ≤ dot m ⟨(boatCenterOf rectNotch).x - (islandCenterOf lShape).x,
                    (boatCenterOf rectNotch).z - (islandCenterOf lShape).z⟩)) :=
  ⟨rfl, by simp [lShape], by rw [rectNotch_axes]; simp,
    getCollisionMTV_sat_spec rectNotch lShape rfl (by simp [lShape])
      (by rw [rectNotch_axes]; simp)⟩

/-! The ear-clipping triangulator (`triangulatePolygon` in `src/camera.ts`). -/

/-- Shoelace signed area (`getPolygonArea`). -/
def getPolygonArea (poly : List Vec2) : ℝ :=
  ((List.range poly.length).map fun i =>
    let p1 := poly.getD i ⟨0, 0⟩
    let p2 := poly.getD ((i + 1) % poly.length) ⟨0, 0⟩
    p1.x * p2.z - p2.x * p1.z).sum / 2

/-- Barycentric point-in-triangle test (`isPointInTriangle`); false on
degenerate triangles (`denom = 0`). -/
def isPointInTriangle (p a b c : Vec2) : Prop :=
  let v0 : Vec2 := ⟨c.x - a.x, c.z - a.z⟩
  let v1 : Vec2 := ⟨b.x - a.x, b.z - a.z⟩
  let v2 : Vec2 := ⟨p.x - a.x, p.z - a.z⟩
  let dot00 := dot v0 v0
  let dot01 := dot v0 v1
  let dot02 := dot v0 v2
  let dot11 := dot v1 v1
  let dot12 := dot v1 v2
  let denom := dot00 * dot11 - dot01 * dot01
  if denom = 0 then False
  else
    let invDenom := 1 / denom
    let u := (dot11 * dot02 - dot01 * dot12) * invDenom
    let v := (dot00 * dot12 - dot01 * dot02) * invDenom
    u ≥ 0 ∧ v ≥ 0 ∧ u + v ≤ 1

/-- The `isConvex` closure of `triangulatePolygon`: the turn at `curr`
matches the polygon's overall winding (`isCCW`, computed once upstream from
the signed area). -/
def isConvexTurn (isCCW : Prop) (prev curr next : Vec2) : Prop :=
  let cross := (curr.x - prev.x) * (next.z - curr.z) - (curr.z - prev.z) * (next.x - curr.x)
  if isCCW then cross > 0 else cross < 0

/-- The ear test at ring position `i`: three consecutive ring vertices make a
convex turn and no other ring vertex lies inside their triangle. -/
def isEarAt (poly : List Vec2) (isCCW : Prop) (indices : List ℕ) (i : ℕ) : Prop :=
  let pI := indices.getD ((i + indices.length - 1) % indices.length) 0
  let cI := indices.getD i 0
  let nI := indices.getD ((i + 1) % indices.length) 0
  let prev := poly.getD pI ⟨0, 0⟩
  let curr := poly.getD cI ⟨0, 0⟩
  let next := poly.getD nI ⟨0, 0⟩
  isConvexTurn isCCW prev curr next ∧
    ∀ idx ∈ indices, idx ≠ pI ∧ idx ≠ cI ∧ idx ≠ nI →
      ¬ isPointInTriangle (poly.getD idx ⟨0, 0⟩) prev curr next

/-- The inner `for` loop of `triangulatePolygon`: the first ring position
that is a valid ear, scanning candidate positions in order. -/
def findFirstEar (poly : List Vec2) (isCCW : Prop) (indices : List ℕ) : List ℕ → Option ℕ
  | [] => none
  | i :: rest =>
      if isEarAt poly isCCW indices i then some i else findFirstEar poly isCCW indices rest

/-- The triangle emitted when the ear at ring position `i` is cut. -/
def clipTriangle (poly : List Vec2) (indices : List ℕ) (i : ℕ) : List Vec2 :=
  [poly.getD (indices.getD ((i + indices.length - 1) % indices.length) 0) ⟨0, 0⟩,
   poly.getD (indices.getD i 0) ⟨0, 0⟩,
   poly.getD (indices.getD ((i + 1) % indices.length) 0) ⟨0, 0⟩]

/-- The `while (indices.length > 3)` loop of `triangulatePolygon`, with an
explicit fuel argument (the source relies on each pass removing one vertex;
fuel ≥ ring length makes the embedding total, and fuel-independence is proved
as claim C8): each pass cuts the first valid ear and removes its middle
vertex from the ring, or exits returning what was produced so far. -/
def triClipLoop (poly : List Vec2) (isCCW : Prop) :
    ℕ → List ℕ → List (List Vec2) → List (List Vec2) × List ℕ
  | 0, indices, tris => (tris, indices)
  | fuel + 1, indices, tris =>
      if 3 < indices.length then
        match findFirstEar poly isCCW indices (List.range indices.length) with
        | none => (tris, indices)
        | some i =>
            triClipLoop poly isCCW fuel (indices.eraseIdx i)
              (tris ++ [clipTriangle poly indices i])
      else (tris, indices)

/-- Ear-clipping triangulation (`triangulatePolygon` in `src/camera.ts`):
empty for fewer than 3 vertices, else clip ears until 3 ring vertices remain
(or no valid ear exists) and emit the final triangle when exactly 3 remain. -/
def triangulatePolygon (poly : List Vec2) : List (List Vec2) :=
  if poly.length < 3 then []
  else
    let isCCW := getPolygonArea poly > 0
    let res := triClipLoop poly isCCW poly.length (List.range poly.length) []
    if res.2.length = 3 then
      res.1 ++ [[poly.getD (res.2.getD 0 0) ⟨0, 0⟩, poly.getD (res.2.getD 1 0) ⟨0, 0⟩,
                 poly.getD (res.2.getD 2 0) ⟨0, 0⟩]]
    else res.1

/-! Concrete evaluation of the triangulator on the L-shape fixture, toward
claim C2's notch scenario. -/

theorem lShape_area : getPolygonArea lShape = 12 := by
  norm_num [getPolygonArea, lShape, List.range_succ, List.getD]

theorem ear_1_0 (c : Prop) (h : c) : isEarAt lShape c [0, 1, 2, 3, 4, 5] 0 := by
  norm_num [isEarAt, isConvexTurn, isPointInTriangle, dot, lShape, List.getD,
    List.forall_mem_cons, if_pos h]

theorem ear_2_0 (c : Prop) : ¬ isEarAt lShape c [1, 2, 3, 4, 5] 0 := by
  intro hear
  obtain ⟨-, hall⟩ := hear
  have h4 := hall 4 (by norm_num) (by norm_num)
  apply h4
  norm_num [isPointInTriangle, dot, lShape, List.getD]

theorem ear_2_1 (c : Prop) (h : c) : isEarAt lShape c [1, 2, 3, 4, 5] 1 := by
  norm_num [isEarAt, isConvexTurn, isPointInTriangle, dot, lShape, List.getD,
    List.forall_mem_cons, if_pos h]

theorem ear_3_0 (c : Prop) : ¬ isEarAt lShape c [1, 3, 4, 5] 0 := by
  intro hear
  obtain ⟨-, hall⟩ := hear
  have h4 := hall 4 (by norm_num) (by norm_num)
  apply h4
  norm_num [isPointInTriangle, dot, lShape, List.getD]

theorem ear_3_1 (c : Prop) (h : c) : isEarAt lShape c [1, 3, 4, 5] 1 := by
  norm_num [isEarAt, isConvexTurn, isPointInTriangle, dot, lShape, List.getD,
    List.forall_mem_cons, if_pos h]

theorem lg0 : (lShape[0]?).getD ⟨0, 0⟩ = ⟨0, 0⟩ := rfl
theorem lg1 : (lShape[1]?).getD ⟨0, 0⟩ = ⟨4, 0⟩ := rfl
theorem lg2 : (lShape[2]?).getD ⟨0, 0⟩ = ⟨4, 4⟩ := rfl
theorem lg3 : (lShape[3]?).getD ⟨0, 0⟩ = ⟨2, 4⟩ := rfl
theorem lg4 : (lShape[4]?).getD ⟨0, 0⟩ = ⟨2, 2⟩ := rfl
theorem lg5 : (lShape[5]?).getD ⟨0, 0⟩ = ⟨0, 2⟩ := rfl

theorem lShape_loop_eval (c : Prop) (h : c) :
    triClipLoop lShape c 6 [0, 1, 2, 3, 4, 5] [] =
      ([[⟨0, 2⟩, ⟨0, 0⟩, ⟨4, 0⟩], [⟨4, 0⟩, ⟨4, 4⟩, ⟨2, 4⟩], [⟨4, 0⟩, ⟨2, 4⟩, ⟨2, 2⟩]],
       [1, 4, 5]) := by
  have hr6 : List.range 6 = [0, 1, 2, 3, 4, 5] := by decide
  have hr5 : List.range 5 = [0, 1, 2, 3, 4] := by decide
  have hr4 : List.range 4 = [0, 1, 2, 3] := by decide
  have hfe1 : findFirstEar lShape c [0, 1, 2, 3, 4, 5] [0, 1, 2, 3, 4, 5] = some 0 := by
    simp only [findFirstEar, if_pos (ear_1_0 c h)]
  have hfe2 : findFirstEar lShape c [1, 2, 3, 4, 5] [0, 1, 2, 3, 4] = some 1 := by
    simp only [findFirstEar, if_neg (ear_2_0 c), if_pos (ear_2_1 c h)]
  have hfe3 : findFirstEar lShape c [1, 3, 4, 5] [0, 1, 2, 3] = some 1 := by
    simp only [findFirstEar, if_neg (ear_3_0 c), if_pos (ear_3_1 c h)]
  rw [triClipLoop, if_pos (by norm_num),
    show List.length ([0, 1, 2, 3, 4, 5] : List ℕ) = 6 from rfl, hr6, hfe1]
  norm_num [List.eraseIdx, clipTriangle, lg0, lg1, lg2, lg3, lg4, lg5]
  rw [triClipLoop, if_pos (by norm_num),
    show List.length ([1, 2, 3, 4, 5] : List ℕ) = 5 from rfl, hr5, hfe2]
  norm_num [List.eraseIdx, clipTriangle, lg0, lg1, lg2, lg3, lg4, lg5]
  rw [triClipLoop, if_pos (by norm_num),
    show List.length ([1, 3, 4, 5] : List ℕ) = 4 from rfl, hr4, hfe3]
  norm_num [List.eraseIdx, clipTriangle, lg0, lg1, lg2, lg3, lg4, lg5]
  rw [triClipLoop, if_neg (by norm_num)]

theorem lShape_triangulation :
    triangulatePolygon lShape =
      [[⟨0, 2⟩, ⟨0, 0⟩, ⟨4, 0⟩], [⟨4, 0⟩, ⟨4, 4⟩, ⟨2, 4⟩],
       [⟨4, 0⟩, ⟨2, 4⟩, ⟨2, 2⟩], [⟨4, 0⟩, ⟨2, 2⟩, ⟨0, 2⟩]] := by
  have hr6 : List.range 6 = [0, 1, 2, 3, 4, 5] := by decide
  have hle := lShape_loop_eval (getPolygonArea lShape > 0) (by rw [lShape_area]; norm_num)
  rw [triangulatePolygon, if_neg (by rw [show lShape.length = 6 from rfl]; norm_num)]
  simp only [show lShape.length = 6 from rfl, hr6, hle]
  norm_num [lg1, lg4, lg5]

/-! SAT tests of the notch rectangle against each triangle of the L-shape:
each is separated by one of the rectangle's own axis-aligned edge normals. -/

theorem rectNotch_tri1 :
    getCollisionMTV rectNotch [⟨0, 2⟩, ⟨0, 0⟩, ⟨4, 0⟩] = none := by
  rw [getCollisionMTV, rectNotch_axes]
  norm_num [satScan, overlapOn, projectPolygon, getOverlap, rectNotch, dot,
    List.foldl, List.cons_append]

theorem rectNotch_tri2 :
    getCollisionMTV rectNotch [⟨4, 0⟩, ⟨4, 4⟩, ⟨2, 4⟩] = none := by
  rw [getCollisionMTV, rectNotch_axes]
  norm_num [satScan, overlapOn, projectPolygon, getOverlap, rectNotch, dot,
    List.foldl, List.cons_append]

theorem rectNotch_tri3 :
    getCollisionMTV rectNotch [⟨4, 0⟩, ⟨2, 4⟩, ⟨2, 2⟩] = none := by
  rw [getCollisionMTV, rectNotch_axes]
  norm_num [satScan, overlapOn, projectPolygon, getOverlap, rectNotch, dot,
    List.foldl, List.cons_append]

theorem rectNotch_tri4 :
    getCollisionMTV rectNotch [⟨4, 0⟩, ⟨2, 2⟩, ⟨0, 2⟩] = none := by
  rw [getCollisionMTV, rectNotch_axes]
  norm_num [satScan, overlapOn, projectPolygon, getOverlap, rectNotch, dot,
    List.foldl, List.cons_append]

/-! The concave collision path (`getConcaveCollisionMTV` in `src/camera.ts`). -/

/-- The triangle loop of `getConcaveCollisionMTV`: run the SAT test against
each triangle, keep the MTV of (strictly) smallest magnitude (the
`bestLen = Infinity` start is modelled by the `Option` accumulator). -/
def concaveScan (rect : List Vec2) :
    List (List Vec2) → Option (Vec2 × ℝ) → Option (Vec2 × ℝ)
  | [], best => best
  | t :: ts, none =>
      match getCollisionMTV rect t with
      | none => concaveScan rect ts none
      | some mtv => concaveScan rect ts (some (mtv, mag mtv))
  | t :: ts, some (bm, bl) =>
      match getCollisionMTV rect t with
      | none => concaveScan rect ts (some (bm, bl))
      | some mtv =>
          if mag mtv < bl then concaveScan rect ts (some (mtv, mag mtv))
          else concaveScan rect ts (some (bm, bl))

/-- Rectangle vs. concave polygon (`getConcaveCollisionMTV`): triangulate the
polygon and return the per-triangle MTV of smallest magnitude, `none` when no
triangle collides. -/
def getConcaveCollisionMTV (boatCorners islandPolygon : List Vec2) : Option Vec2 :=
  match concaveScan boatCorners (triangulatePolygon islandPolygon) none with
  | none => none
  | some (bestMTV, _) => some bestMTV

/-- The triangle scan returns `none` exactly when it started with no best and
no scanned triangle collides. -/
theorem concaveScan_none_iff (rect : List Vec2) (ts : List (List Vec2)) :
    ∀ best : Option (Vec2 × ℝ),
      concaveScan rect ts best = none ↔
        (best = none ∧ ∀ t ∈ ts, getCollisionMTV rect t = none) := by
  induction ts with
  | nil => intro best; cases best <;> simp [concaveScan]
  | cons t ts ih =>
      intro best
      cases best with
      | none =>
          cases hmtv : getCollisionMTV rect t with
          | none => simp [concaveScan, hmtv, ih, List.forall_mem_cons]
          | some mtv => simp [concaveScan, hmtv, ih, List.forall_mem_cons]
      | some b =>
          obtain ⟨bm, bl⟩ := b
          cases hmtv : getCollisionMTV rect t with
          | none => simp [concaveScan, hmtv, ih]
          | some mtv =>
              by_cases hlt : mag mtv < bl <;>
                simp [concaveScan, hmtv, hlt, ih]

/-- What a successful triangle scan returns: the MTV of one colliding scanned
triangle (or the incoming best), paired with its magnitude, minimal among all
scanned collisions and at most the incoming best. -/
theorem concaveScan_some_spec (rect : List Vec2) (ts : List (List Vec2)) :
    ∀ (best : Option (Vec2 × ℝ)) (res : Vec2 × ℝ),
      concaveScan rect ts best = some res →
        ((∃ t ∈ ts, getCollisionMTV rect t = some res.1 ∧ res.2 = mag res.1) ∨
          best = some res) ∧
        (∀ t ∈ ts, ∀ m, getCollisionMTV rect t = some m → res.2 ≤ mag m) ∧
        (∀ b : Vec2 × ℝ, best = some b → res.2 ≤ b.2) := by
  induction ts with
  | nil =>
      intro best res h
      simp only [concaveScan] at h
      exact ⟨Or.inr h, by simp, fun b hb => by rw [h] at hb; cases hb; exact le_refl _⟩
  | cons t ts ih =>
      intro best res h
      cases best with
      | none =>
          cases hmtv : getCollisionMTV rect t with
          | none =>
              rw [show concaveScan rect (t :: ts) none = concaveScan rect ts none by
                simp [concaveScan, hmtv]] at h
              obtain ⟨hmem, hmin, -⟩ := ih none res h
              refine ⟨?_, ?_, fun b hb => by cases hb⟩
              · rcases hmem with ⟨u, hu, hcol⟩ | hcontra
                · exact Or.inl ⟨u, List.mem_cons_of_mem _ hu, hcol⟩
                · cases hcontra
              · intro u hu m hm
                rcases List.mem_cons.mp hu with rfl | hu
                · rw [hmtv] at hm; cases hm
                · exact hmin u hu m hm
          | some mtv =>
              rw [show concaveScan rect (t :: ts) none =
                  concaveScan rect ts (some (mtv, mag mtv)) by simp [concaveScan, hmtv]] at h
              obtain ⟨hmem, hmin, hbest⟩ := ih _ res h
              have hres2 : res.2 ≤ mag mtv := hbest _ rfl
              refine ⟨?_, ?_, fun b hb => by cases hb⟩
              · rcases hmem with ⟨u, hu, hcol⟩ | he
                · exact Or.inl ⟨u, List.mem_cons_of_mem _ hu, hcol⟩
                · obtain rfl := Option.some.inj he
                  exact Or.inl ⟨t, List.mem_cons_self _ _, hmtv, rfl⟩
              · intro u hu m hm
                rcases List.mem_cons.mp hu with rfl | hu
                · rw [hmtv] at hm
                  obtain rfl := Option.some.inj hm
                  exact hres2
                · exact hmin u hu m hm
      | some b =>
          obtain ⟨bm, bl⟩ := b
          cases hmtv : getCollisionMTV rect t with
          | none =>
              rw [show concaveScan rect (t :: ts) (some (bm, bl)) =
                  concaveScan rect ts (some (bm, bl)) by simp [concaveScan, hmtv]] at h
              obtain ⟨hmem, hmin, hbest⟩ := ih _ res h
              refine ⟨?_, ?_, ?_⟩
              · rcases hmem with ⟨u, hu, hcol⟩ | he
                · exact Or.inl ⟨u, List.mem_cons_of_mem _ hu, hcol⟩
                · exact Or.inr he
              · intro u hu m hm
                rcases List.mem_cons.mp hu with rfl | hu
                · rw [hmtv] at hm; cases hm
                · exact hmin u hu m hm
              · intro b hb
                obtain rfl := Option.some.inj hb
                exact hbest _ rfl
          | some mtv =>
              by_cases hlt : mag mtv < bl
              · rw [show concaveScan rect (t :: ts) (some (bm, bl)) =
                    concaveScan rect ts (some (mtv, mag mtv)) by
                      simp [concaveScan, hmtv, hlt]] at h
                obtain ⟨hmem, hmin, hbest⟩ := ih _ res h
                have hres2 : res.2 ≤ mag mtv := hbest _ rfl
                refine ⟨?_, ?_, ?_⟩
                · rcases hmem with ⟨u, hu, hcol⟩ | he
                  · exact Or.inl ⟨u, List.mem_cons_of_mem _ hu, hcol⟩
                  · obtain rfl := Option.some.inj he
                    exact Or.inl ⟨t, List.mem_cons_self _ _, hmtv, rfl⟩
                · intro u hu m hm
                  rcases List.mem_cons.mp hu with rfl | hu
                  · rw [hmtv] at hm
                    obtain rfl := Option.some.inj hm
                    exact hres2
                  · exact hmin u hu m hm
                · intro b hb
                  obtain rfl := Option.some.inj hb
                  exact le_trans hres2 (le_of_lt hlt)
              · rw [show concaveScan rect (t :: ts) (some (bm, bl)) =
                    concaveScan rect ts (some (bm, bl)) by
                      simp [concaveScan, hmtv, hlt]] at h
                obtain ⟨hmem, hmin, hbest⟩ := ih _ res h
                have hres2 : res.2 ≤ bl := hbest _ rfl
                refine ⟨?_, ?_, ?_⟩
                · rcases hmem with ⟨u, hu, hcol⟩ | he
                  · exact Or.inl ⟨u, List.mem_cons_of_mem _ hu, hcol⟩
                  · exact Or.inr he
                · intro u hu m hm
                  rcases List.mem_cons.mp hu with rfl | hu
                  · rw [hmtv] at hm
                    obtain rfl := Option.some.inj hm
                    exact le_trans hres2 (not_lt.mp hlt)
                  · exact hmin u hu m hm
                · intro b hb
                  obtain rfl := Option.some.inj hb
                  exact hres2

/-! Claim C2. -/

/-- C2: `getConcaveCollisionMTV` triangulates the polygon and runs the SAT
test against every triangle: the result is `none` exactly when no triangle
reports a collision, and an MTV result is the reported MTV of one of the
triangles, of smallest magnitude among all triangles that report one.  In
particular, the rectangle lying inside the L-shape's concave notch (outside
the solid area) is reported as non-colliding. -/
theorem getConcaveCollisionMTV_spec :
    (∀ rect poly : List Vec2,
      (getConcaveCollisionMTV rect poly = none ↔
        ∀ t ∈ triangulatePolygon poly, getCollisionMTV rect t = none) ∧
      (∀ m, getConcaveCollisionMTV rect poly = some m →
        (∃ t ∈ triangulatePolygon poly, getCollisionMTV rect t = some m) ∧
        ∀ t ∈ triangulatePolygon poly, ∀ m', getCollisionMTV rect t = some m' →
          mag m ≤ mag m')) ∧
    getConcaveCollisionMTV rectNotch lShape = none := by
  have main : ∀ rect poly : List Vec2,
      (getConcaveCollisionMTV rect poly = none ↔
        ∀ t ∈ triangulatePolygon poly, getCollisionMTV rect t = none) ∧
      (∀ m, getConcaveCollisionMTV rect poly = some m →
        (∃ t ∈ triangulatePolygon poly, getCollisionMTV rect t = some m) ∧
        ∀ t ∈ triangulatePolygon poly, ∀ m', getCollisionMTV rect t = some m' →
          mag m ≤ mag m') := by
    intro rect poly
    constructor
    · cases hscan : concaveScan rect (triangulatePolygon poly) none with
      | none =>
          have h := (concaveScan_none_iff rect (triangulatePolygon poly) none).mp hscan
          rw [getConcaveCollisionMTV, hscan]
          exact ⟨fun _ => h.2, fun _ => rfl⟩
      | some p =>
          obtain ⟨bm, bl⟩ := p
          rw [getConcaveCollisionMTV, hscan]
          constructor
          · intro h; cases h
          · intro hall
            have := (concaveScan_none_iff rect (triangulatePolygon poly) none).mpr
              ⟨rfl, hall⟩
            rw [hscan] at this
            cases this
    · intro m hm
      cases hscan : concaveScan rect (triangulatePolygon poly) none with
      | none => rw [getConcaveCollisionMTV, hscan] at hm; cases hm
      | some p =>
          obtain ⟨bm, bl⟩ := p
          rw [getConcaveCollisionMTV, hscan] at hm
          have hbm : bm = m := Option.some.inj hm
          obtain ⟨hmem, hmin, -⟩ :=
            concaveScan_some_spec rect (triangulatePolygon poly) none (bm, bl) hscan
          rcases hmem with ⟨t, ht, hcol, hlen⟩ | hcontra
          · refine ⟨⟨t, ht, by rw [← hbm]; exact hcol⟩, ?_⟩
            intro u hu m' hm'
            have h2 := hmin u hu m' hm'
            rw [← hbm]
            calc mag bm = bl := hlen.symm
              _ ≤ mag m' := h2
          · cases hcontra
  refine ⟨main, ?_⟩
  exact (main rectNotch lShape).1.mpr (by
    rw [lShape_triangulation]
    intro t ht
    rcases List.mem_cons.mp ht with rfl | ht
    · exact rectNotch_tri1
    rcases List.mem_cons.mp ht with rfl | ht
    · exact rectNotch_tri2
    rcases List.mem_cons.mp ht with rfl | ht
    · exact rectNotch_tri3
    rcases List.mem_cons.mp ht with rfl | ht
    · exact rectNotch_tri4
    cases ht)

/-! Termination of the ear-clipping loop, toward claim C8. -/

/-- One unfolding of the clip loop when the ring is still longer than 3. -/
theorem triClipLoop_step (poly : List Vec2) (c : Prop) (fuel : ℕ) (indices : List ℕ)
    (tris : List (List Vec2)) (h3 : 3 < indices.length) :
    triClipLoop poly c (fuel + 1) indices tris =
      match findFirstEar poly c indices (List.range indices.length) with
      | none => (tris, indices)
      | some i =>
          triClipLoop poly c fuel (indices.eraseIdx i)
            (tris ++ [clipTriangle poly indices i]) := by
  rw [triClipLoop, if_pos h3]

/-- The ear scan returns a position it actually scanned. -/
theorem findFirstEar_mem (poly : List Vec2) (c : Prop) (indices : List ℕ) :
    ∀ (l : List ℕ) (i : ℕ), findFirstEar poly c indices l = some i → i ∈ l := by
  intro l
  induction l with
  | nil => intro i h; cases h
  | cons j rest ih =>
      intro i h
      rw [findFirstEar] at h
      by_cases hear : isEarAt poly c indices j
      · rw [if_pos hear] at h
        obtain rfl := Option.some.inj h
        exact List.mem_cons_self _ _
      · rw [if_neg hear] at h
        exact List.mem_cons_of_mem _ (ih i h)

/-- Adding one unit of sufficient fuel does not change the clip loop. -/
theorem triClipLoop_succ (poly : List Vec2) (c : Prop) :
    ∀ (fuel : ℕ) (indices : List ℕ) (tris : List (List Vec2)),
      indices.length ≤ fuel →
      triClipLoop poly c (fuel + 1) indices tris = triClipLoop poly c fuel indices tris := by
  intro fuel
  induction fuel with
  | zero =>
      intro indices tris hlen
      have h0 : indices.length = 0 := Nat.le_zero.mp hlen
      conv_lhs => rw [triClipLoop]
      rw [if_neg (by omega), triClipLoop]
  | succ f ih =>
      intro indices tris hlen
      by_cases h3 : 3 < indices.length
      · cases hfe : findFirstEar poly c indices (List.range indices.length) with
        | none =>
            rw [triClipLoop_step poly c (f + 1) indices tris h3, hfe,
              triClipLoop_step poly c f indices tris h3, hfe]
        | some i =>
            rw [triClipLoop_step poly c (f + 1) indices tris h3, hfe,
              triClipLoop_step poly c f indices tris h3, hfe]
            show triClipLoop poly c (f + 1) (indices.eraseIdx i)
                (tris ++ [clipTriangle poly indices i]) =
              triClipLoop poly c f (indices.eraseIdx i)
                (tris ++ [clipTriangle poly indices i])
            apply ih
            have hi : i < indices.length := by
              have hmem := findFirstEar_mem poly c indices (List.range indices.length) i hfe
              simpa using hmem
            have := List.length_eraseIdx_add_one hi
            omega
      · rw [triClipLoop, if_neg h3, triClipLoop, if_neg h3]

/-- With fuel at least the ring length, the clip loop has converged: any
such fuel computes the same result as fuel exactly the ring length. -/
theorem triClipLoop_fuel_stable (poly : List Vec2) (c : Prop) :
    ∀ (fuel : ℕ) (indices : List ℕ) (tris : List (List Vec2)),
      indices.length ≤ fuel →
      triClipLoop poly c fuel indices tris =
        triClipLoop poly c indices.length indices tris := by
  intro fuel
  induction fuel with
  | zero =>
      intro indices tris h
      rw [Nat.le_zero.mp h]
  | succ f ih =>
      intro indices tris h
      rcases Nat.lt_or_ge indices.length (f + 1) with hlt | hge
      · have hle : indices.length ≤ f := by omega
        rw [triClipLoop_succ poly c f indices tris hle, ih indices tris hle]
      · have heq : indices.length = f + 1 := by omega
        rw [heq]

/-- The triangulator with an explicit fuel budget for the clip loop; the
source's `while` loop corresponds to the limit, which claim C8 shows is
reached by any fuel of at least the polygon's vertex count. -/
def triangulateWithFuel (poly : List Vec2) (fuel : ℕ) : List (List Vec2) :=
  if poly.length < 3 then []
  else
    let isCCW := getPolygonArea poly > 0
    let res := triClipLoop poly isCCW fuel (List.range poly.length) []
    if res.2.length = 3 then
      res.1 ++ [[poly.getD (res.2.getD 0 0) ⟨0, 0⟩, poly.getD (res.2.getD 1 0) ⟨0, 0⟩,
                 poly.getD (res.2.getD 2 0) ⟨0, 0⟩]]
    else res.1

/-! Claim C8. -/

/-- C8: the ear-clipping loop terminates on every input: each pass over a
ring longer than 3 either cuts the first valid ear — removing exactly one
vertex from the ring and emitting exactly one triangle — or, when no valid
ear exists, exits returning the triangles produced so far; consequently the
loop converges within ring-length passes (more fuel never changes the
result), and the triangulator computed with any sufficient fuel equals
`triangulatePolygon`. -/
theorem triangulatePolygon_terminates :
    (∀ (poly : List Vec2) (c : Prop) (fuel : ℕ) (indices : List ℕ)
        (tris : List (List Vec2)), indices.length ≤ fuel →
        triClipLoop poly c fuel indices tris =
          triClipLoop poly c indices.length indices tris) ∧
    (∀ (poly : List Vec2) (c : Prop) (fuel : ℕ) (indices : List ℕ)
        (tris : List (List Vec2)), 3 < indices.length →
        (findFirstEar poly c indices (List.range indices.length) = none →
          triClipLoop poly c (fuel + 1) indices tris = (tris, indices)) ∧
        (∀ i, findFirstEar poly c indices (List.range indices.length) = some i →
          i < indices.length ∧ (indices.eraseIdx i).length + 1 = indices.length ∧
          triClipLoop poly c (fuel + 1) indices tris =
            triClipLoop poly c fuel (indices.eraseIdx i)
              (tris ++ [clipTriangle poly indices i]))) ∧
    (∀ (poly : List Vec2) (fuel : ℕ), poly.length ≤ fuel →
        triangulateWithFuel poly fuel = triangulatePolygon poly) := by
  refine ⟨triClipLoop_fuel_stable, ?_, ?_⟩
  · intro poly c fuel indices tris h3
    constructor
    · intro hfe
      rw [triClipLoop_step poly c fuel indices tris h3, hfe]
    · intro i hfe
      have hi : i < indices.length := by
        have hmem := findFirstEar_mem poly c indices (List.range indices.length) i hfe
        simpa using hmem
      refine ⟨hi, List.length_eraseIdx_add_one hi, ?_⟩
      rw [triClipLoop_step poly c fuel indices tris h3, hfe]
  · intro poly fuel h
    have hs := triClipLoop_fuel_stable poly (getPolygonArea poly > 0) fuel
      (List.range poly.length) [] (by simpa using h)
    rw [List.length_range] at hs
    simp only [triangulateWithFuel, triangulatePolygon, hs]

/-! The collision couplers (`handleIslandCollision` in `src/collision.ts`,
`handleIslandCollisions` in `src/camera.ts`). -/

/-- The response both couplers apply once an MTV has been computed: add the
MTV to the position; when its magnitude exceeds the `0.001` epsilon, remove
any negative velocity component along the normalized MTV and scale the whole
velocity by the `0.7` damping factor. -/
def applyMTV (s : GameState) (mtv : Vec2) : GameState :=
  let pos : Vec2 := ⟨s.position.x + mtv.x, s.position.z + mtv.z⟩
  let mtvLen := mag mtv
  if mtvLen > 0.001 then
    let n : Vec2 := ⟨mtv.x / mtvLen, mtv.z / mtvLen⟩
    let velDot := s.velocity.x * n.x + s.velocity.z * n.z
    let v1 : Vec2 :=
      if velDot < 0 then ⟨s.velocity.x - n.x * velDot, s.velocity.z - n.z * velDot⟩
      else s.velocity
    { s with position := pos, velocity := ⟨v1.x * 0.7, v1.z * 0.7⟩ }
  else { s with position := pos }

/-- `handleIslandCollision` of `src/collision.ts`: skip degenerate polygons,
run the convex SAT test against the boat's corners, apply the response. -/
def handleIslandCollision (s : GameState) (collider : List Vec2) : GameState :=
  if collider.length < 3 then s
  else
    match getCollisionMTV (getBoatCorners s) collider with
    | none => s
    | some mtv => applyMTV s mtv

/-- `handleIslandCollisions` of `src/camera.ts`: fold over the colliders,
recomputing the boat corners from the current (possibly already corrected)
state, using the concave (triangulated) collision test. -/
def handleIslandCollisions (s : GameState) (colliders : List (List Vec2)) : GameState :=
  colliders.foldl
    (fun s c =>
      if c.length < 3 then s
      else
        match getConcaveCollisionMTV (getBoatCorners s) c with
        | none => s
        | some mtv => applyMTV s mtv) s

/-! Claim C5. -/

/-- C5: whenever the coupler receives an MTV, the MTV is added directly to
the position; when the MTV's magnitude exceeds the epsilon `0.001`, with `n`
the normalized MTV, the post-correction velocity's dot product with `n` is
non-negative, the tangential component is exactly the pre-correction one
scaled by the damping factor `0.7 < 1`, and a velocity not pointing into the
obstacle is only damped; when the magnitude is at or below the epsilon the
velocity is left unchanged (position, heading and spin aside, nothing else
moves). -/
theorem applyMTV_response (s : GameState) (mtv : Vec2) :
    (applyMTV s mtv).position = ⟨s.position.x + mtv.x, s.position.z + mtv.z⟩ ∧
    (applyMTV s mtv).heading = s.heading ∧
    (applyMTV s mtv).angularVelocity = s.angularVelocity ∧
    (0.7 : ℝ) < 1 ∧
    (mag mtv ≤ 0.001 → (applyMTV s mtv).velocity = s.velocity) ∧
    (mag mtv > 0.001 →
      0 ≤ dot (applyMTV s mtv).velocity ⟨mtv.x / mag mtv, mtv.z / mag mtv⟩ ∧
      (∀ t : Vec2, dot t ⟨mtv.x / mag mtv, mtv.z / mag mtv⟩ = 0 →
        dot (applyMTV s mtv).velocity t = 0.7 * dot s.velocity t) ∧
      (0 ≤ dot s.velocity ⟨mtv.x / mag mtv, mtv.z / mag mtv⟩ →
        (applyMTV s mtv).velocity = ⟨s.velocity.x * 0.7, s.velocity.z * 0.7⟩)) := by
  by_cases hlen : mag mtv > 0.001
  · have hpos : (0 : ℝ) < mag mtv := lt_trans (by norm_num) hlen
    have hne : mag mtv ≠ 0 := ne_of_gt hpos
    have hnn : mag mtv * mag mtv = mtv.x * mtv.x + mtv.z * mtv.z :=
      Real.mul_self_sqrt (by nlinarith [mul_self_nonneg mtv.x, mul_self_nonneg mtv.z])
    have hnunit : (mtv.x / mag mtv) * (mtv.x / mag mtv) +
        (mtv.z / mag mtv) * (mtv.z / mag mtv) = 1 := by
      field_simp
      linarith [hnn]
    simp only [applyMTV, if_pos hlen]
    set nx : ℝ := mtv.x / mag mtv with hnx
    set nz : ℝ := mtv.z / mag mtv with hnz
    set vx : ℝ := s.velocity.x with hvx
    set vz : ℝ := s.velocity.z with hvz
    set D : ℝ := vx * nx + vz * nz with hD
    by_cases hneg : D < 0
    · rw [if_pos hneg]
      refine ⟨by trivial, by trivial, by trivial, by norm_num,
        fun habs => absurd hlen (not_lt.mpr habs), fun _ => ⟨?_, ?_, ?_⟩⟩
      · simp only [dot]
        have h0 : (vx - nx * D) * 0.7 * nx + (vz - nz * D) * 0.7 * nz = 0 := by
          linear_combination (-(0.7 : ℝ)) * hD - 0.7 * D * hnunit
        linarith [h0]
      · intro t ht
        simp only [dot] at ht ⊢
        linear_combination (-(0.7 : ℝ) * D) * ht
      · intro hge
        exact absurd hneg (not_lt.mpr hge)
    · rw [if_neg hneg]
      have hDnn : 0 ≤ D := not_lt.mp hneg
      refine ⟨by trivial, by trivial, by trivial, by norm_num,
        fun habs => absurd hlen (not_lt.mpr habs), fun _ => ⟨?_, ?_, fun _ => by trivial⟩⟩
      · simp only [dot]
        have h1 : vx * 0.7 * nx + vz * 0.7 * nz = 0.7 * D := by
          rw [hD]; ring
        linarith [h1]
      · intro t ht
        simp only [dot] at ht ⊢
        ring
  · simp only [applyMTV, if_neg hlen]
    exact ⟨by trivial, by trivial, by trivial, by norm_num, fun _ => by trivial,
      fun habs => absurd habs hlen⟩

/-! The point-in-polygon zone query (`isAtPort`). -/

/-- Ray-casting point-in-polygon test (`isAtPort` in the port-zone module):
false for fewer than 3 vertices, else a crossing-parity fold over the edges
`(polygon[j], polygon[i])` with `j` the predecessor of `i`. -/
def isAtPort (position : Vec2) (portPolygon : List Vec2) : Bool :=
  if portPolygon.length < 3 then false
  else
    (List.range portPolygon.length).foldl
      (fun inside i =>
        let pv := portPolygon.getD i ⟨0, 0⟩
        let qv := portPolygon.getD
          ((i + portPolygon.length - 1) % portPolygon.length) ⟨0, 0⟩
        if (¬ ((pv.z > position.z) ↔ (qv.z > position.z))) ∧
            position.x < (qv.x - pv.x) * (position.z - pv.z) / (qv.z - pv.z) + pv.x
        then !inside else inside)
      false

/-- A self-intersecting "bowtie" quadrilateral whose two lobes cancel: its
shoelace signed area is exactly 0 although it has 4 vertices. -/
def bowtie : List Vec2 := [⟨0, 0⟩, ⟨1, 1⟩, ⟨1, 0⟩, ⟨0, 1⟩]

/-! Claim C6. -/

/-- C6 counterexample: the bowtie polygon is malformed in the claim's sense —
at least 3 vertices but zero signed area — yet the point-in-polygon test
returns `true` at the point `(0.8, 0.6)` inside one of its lobes, so
zero-signed-area polygons are not treated as absent geometry. -/
theorem zero_area_polygon_not_absent :
    getPolygonArea bowtie = 0 ∧ 3 ≤ bowtie.length ∧
      isAtPort ⟨0.8, 0.6⟩ bowtie = true := by
  refine ⟨?_, by norm_num [bowtie], ?_⟩
  · norm_num [getPolygonArea, bowtie, List.range_succ, List.getD]
  · have hr4 : List.range 4 = [0, 1, 2, 3] := by decide
    rw [isAtPort, if_neg (by norm_num [bowtie]), show bowtie.length = 4 from rfl, hr4]
    norm_num [List.foldl, bowtie, List.getD]

/-- C6 as amended: only polygons with fewer than 3 vertices are treated as
absent geometry — both collision couplers leave the whole vehicle state
unchanged and the containment test returns false for every query point. -/
theorem degenerate_polygon_no_effect (s : GameState) (pos : Vec2) (poly : List Vec2)
    (h : poly.length < 3) :
    handleIslandCollision s poly = s ∧ handleIslandCollisions s [poly] = s ∧
      isAtPort pos poly = false := by
  refine ⟨by rw [handleIslandCollision, if_pos h], ?_, by rw [isAtPort, if_pos h]⟩
  show List.foldl _ s [poly] = s
  rw [List.foldl_cons, if_pos h, List.foldl_nil]

/-- Witness for the amended C6 at a concrete input: a 2-vertex polygon. -/
theorem degenerate_polygon_no_effect_witness :
    ([(⟨0, 0⟩ : Vec2), ⟨1, 0⟩] : List Vec2).length < 3 ∧
      (handleIslandCollision ⟨⟨0, 0⟩, ⟨0, 0⟩, 0, 0⟩ [⟨0, 0⟩, ⟨1, 0⟩] = ⟨⟨0, 0⟩, ⟨0, 0⟩, 0, 0⟩ ∧
       handleIslandCollisions ⟨⟨0, 0⟩, ⟨0, 0⟩, 0, 0⟩ [[⟨0, 0⟩, ⟨1, 0⟩]] = ⟨⟨0, 0⟩, ⟨0, 0⟩, 0, 0⟩ ∧
       isAtPort ⟨5, 5⟩ [⟨0, 0⟩, ⟨1, 0⟩] = false) :=
  ⟨by norm_num,
    degenerate_polygon_no_effect ⟨⟨0, 0⟩, ⟨0, 0⟩, 0, 0⟩ ⟨5, 5⟩ [⟨0, 0⟩, ⟨1, 0⟩] (by norm_num)⟩

/-! The camera tracker (`src/camera.ts`). -/

inductive ViewMode
  | overhead
  | cab
deriving DecidableEq

/-- 3D vector, as `THREE.Vector3` is used by the camera code. -/
structure Vec3 where
  x : ℝ
  y : ℝ
  z : ℝ

attribute [ext] Vec3

/-- The camera's smoothed state (`CameraState` in `src/camera.ts`). -/
structure CameraState where
  currentPosition : Vec3
  currentLookAt : Vec3
  viewMode : ViewMode

attribute [ext] CameraState

def CAMERA_HEIGHT : ℝ := 18
def CAMERA_DISTANCE : ℝ := 5
def CAMERA_LOOK_AHEAD : ℝ := 8
def CAMERA_SMOOTHING : ℝ := 0.05
def CAB_HEIGHT : ℝ := 2.5
def CAB_FORWARD_OFFSET : ℝ := -1.0
def CAB_LOOK_DISTANCE : ℝ := 20

/-- `toggleViewMode`: flip the view mode, touching nothing else. -/
def toggleViewMode (c : CameraState) : CameraState :=
  { c with viewMode :=
      if c.viewMode = ViewMode.overhead then ViewMode.cab else ViewMode.overhead }

/-- `THREE.Vector3.lerp`: move `a` toward `b` by fraction `t`. -/
def lerp3 (a b : Vec3) (t : ℝ) : Vec3 :=
  ⟨a.x + (b.x - a.x) * t, a.y + (b.y - a.y) * t, a.z + (b.z - a.z) * t⟩

/-- The target position and look-at of `updateCamera`, per view mode: cab
mode sits near boat height slightly behind center and looks far down the
forward vector; overhead mode sits behind and above and looks ahead. -/
def cameraTargets (mode : ViewMode) (g : GameState) (boatY : ℝ) : Vec3 × Vec3 :=
  match mode with
  | ViewMode.cab =>
      let forwardX := Real.sin g.heading
      let forwardZ := Real.cos g.heading
      (⟨g.position.x + forwardX * CAB_FORWARD_OFFSET, boatY + CAB_HEIGHT,
        g.position.z + forwardZ * CAB_FORWARD_OFFSET⟩,
       ⟨g.position.x + forwardX * CAB_LOOK_DISTANCE, boatY + 1,
        g.position.z + forwardZ * CAB_LOOK_DISTANCE⟩)
  | ViewMode.overhead =>
      (⟨g.position.x + -Real.sin g.heading * CAMERA_DISTANCE, CAMERA_HEIGHT,
        g.position.z + -Real.cos g.heading * CAMERA_DISTANCE⟩,
       ⟨g.position.x + Real.sin g.heading * CAMERA_LOOK_AHEAD, 0,
        g.position.z + Real.cos g.heading * CAMERA_LOOK_AHEAD⟩)

/-- The frame-rate-independent smoothing fraction of `updateCamera`:
`1 - (1 - CAMERA_SMOOTHING) ^ (dt * 60)`. -/
def smoothFactor (dt : ℝ) : ℝ := 1 - (1 - CAMERA_SMOOTHING) ^ (dt * 60)

/-- `updateCamera` (the smoothed-state part): compute the mode's targets from
the vehicle pose and lerp both smoothed vectors toward them. -/
def updateCamera (c : CameraState) (g : GameState) (boatY dt : ℝ) : CameraState :=
  let targets := cameraTargets c.viewMode g boatY
  { c with
    currentPosition := lerp3 c.currentPosition targets.1 (smoothFactor dt),
    currentLookAt := lerp3 c.currentLookAt targets.2 (smoothFactor dt) }

/-- Euclidean distance between two `Vec3`s. -/
def dist3 (a b : Vec3) : ℝ :=
  Real.sqrt ((a.x - b.x) * (a.x - b.x) + (a.y - b.y) * (a.y - b.y) +
    (a.z - b.z) * (a.z - b.z))

/-- A lerp by a fraction in `[0, 1]` does not move a point farther from the
target. -/
theorem dist3_lerp3_le (a b : Vec3) (t : ℝ) (h0 : 0 ≤ t) (h1 : t ≤ 1) :
    dist3 (lerp3 a b t) b ≤ dist3 a b := by
  have hc : ∀ u : ℝ, u + (b.x - u) * t - b.x = (u - b.x) * (1 - t) := fun u => by ring
  simp only [dist3, lerp3]
  have hrw : (a.x + (b.x - a.x) * t - b.x) * (a.x + (b.x - a.x) * t - b.x) +
      (a.y + (b.y - a.y) * t - b.y) * (a.y + (b.y - a.y) * t - b.y) +
      (a.z + (b.z - a.z) * t - b.z) * (a.z + (b.z - a.z) * t - b.z) =
      ((a.x - b.x) * (a.x - b.x) + (a.y - b.y) * (a.y - b.y) +
        (a.z - b.z) * (a.z - b.z)) * ((1 - t) * (1 - t)) := by ring
  have hsum : 0 ≤ (a.x - b.x) * (a.x - b.x) + (a.y - b.y) * (a.y - b.y) +
      (a.z - b.z) * (a.z - b.z) := by
    nlinarith [mul_self_nonneg (a.x - b.x), mul_self_nonneg (a.y - b.y),
      mul_self_nonneg (a.z - b.z)]
  rw [hrw, Real.sqrt_mul hsum, Real.sqrt_mul_self_eq_abs]
  have habs : |1 - t| ≤ 1 := by
    rw [abs_le]
    constructor <;> linarith
  have hnn : 0 ≤ Real.sqrt ((a.x - b.x) * (a.x - b.x) + (a.y - b.y) * (a.y - b.y) +
      (a.z - b.z) * (a.z - b.z)) := Real.sqrt_nonneg _
  have hmul := mul_le_mul_of_nonneg_left habs hnn
  linarith [hmul]

/-- For `dt ≥ 0` the smoothing fraction lies in `[0, 1)`. -/
theorem smoothFactor_mem (dt : ℝ) (h : 0 ≤ dt) :
    0 ≤ smoothFactor dt ∧ smoothFactor dt ≤ 1 := by
  unfold smoothFactor
  have h1 : (1 - CAMERA_SMOOTHING : ℝ) = 0.95 := by norm_num [CAMERA_SMOOTHING]
  rw [h1]
  constructor
  · have : ((0.95 : ℝ)) ^ (dt * 60) ≤ 1 :=
      Real.rpow_le_one (by norm_num) (by norm_num) (by nlinarith)
    linarith
  · have : (0 : ℝ) < (0.95 : ℝ) ^ (dt * 60) := Real.rpow_pos_of_pos (by norm_num) _
    linarith

/-! Claim C9. -/

/-- C9: toggling the view mode only flips `viewMode` between `overhead` and
`cab` — toggling twice restores the original state exactly — and leaves the
smoothed `currentPosition` and `currentLookAt` untouched; the next
`updateCamera` tick then lerps the untouched smoothed vectors toward the
*new* mode's targets by the exponential-smoothing fraction, which for
`dt ≥ 0` lies in `[0, 1]` so each tick moves the smoothed vectors no farther
from their targets. -/
theorem toggleViewMode_frame (c : CameraState) (g : GameState) (boatY dt : ℝ) :
    (toggleViewMode c).currentPosition = c.currentPosition ∧
    (toggleViewMode c).currentLookAt = c.currentLookAt ∧
    (toggleViewMode c).viewMode ≠ c.viewMode ∧
    toggleViewMode (toggleViewMode c) = c ∧
    (updateCamera (toggleViewMode c) g boatY dt).currentPosition =
      lerp3 c.currentPosition (cameraTargets (toggleViewMode c).viewMode g boatY).1
        (smoothFactor dt) ∧
    (updateCamera (toggleViewMode c) g boatY dt).currentLookAt =
      lerp3 c.currentLookAt (cameraTargets (toggleViewMode c).viewMode g boatY).2
        (smoothFactor dt) ∧
    (0 ≤ dt →
      dist3 (updateCamera c g boatY dt).currentPosition
          (cameraTargets c.viewMode g boatY).1 ≤
        dist3 c.currentPosition (cameraTargets c.viewMode g boatY).1 ∧
      dist3 (updateCamera c g boatY dt).currentLookAt
          (cameraTargets c.viewMode g boatY).2 ≤
        dist3 c.currentLookAt (cameraTargets c.viewMode g boatY).2) := by
  refine ⟨rfl, rfl, ?_, ?_, rfl, rfl, ?_⟩
  · cases hv : c.viewMode <;> simp [toggleViewMode, hv]
  · cases hv : c.viewMode <;>
      · ext <;> simp [toggleViewMode, hv]
  · intro hdt
    obtain ⟨h0, h1⟩ := smoothFactor_mem dt hdt
    exact ⟨dist3_lerp3_le _ _ _ h0 h1, dist3_lerp3_le _ _ _ h0 h1⟩

end

end Lobsters
